import Mathlib

/-!
Shallow embedding of `src/markdown-renderer.ts` (lerna-changelog).

The renderer is a single class turning a list of releases into markdown.
Pure string computation throughout, except for one in-place mutation:
`renderContribution` rewrites `issue.title` via `String.prototype.replace`
with the non-global regex `/(fix|close|resolve)(e?s|e?d)? [T#](\d+)/i`.
Because JavaScript objects are references, a commit appearing in several
category buckets is rendered (and possibly rewritten) several times, each
time observing the previous rewrite.  To model that aliasing exactly, the
rendering pipeline below threads a master list of commits as explicit
state and category/package buckets hold indices into it.

JS-isms modelled explicitly: truthiness (`0`, `""`, `undefined` are
falsy; an empty array is truthy), `Array.prototype.map` evaluating left
to right, `filter(Boolean)`, object-literal keys enumerated in insertion
order (all keys here are non-integer-like strings), and the fact that
`replace` without the `g` flag rewrites only the leftmost match.
-/

/-- `GitHubUserResponse` from `github-api.ts` (modelled from the spec:
login, optional display name, profile URL). -/
structure GitHubUserResponse where
  login : String
  html_url : String
  name : Option String
deriving DecidableEq, Repr

/-- The `pull_request` sub-object of a GitHub issue response. -/
structure PullRequestInfo where
  html_url : String
deriving DecidableEq, Repr

/-- GitHub issue metadata attached to a commit (modelled from the spec:
number, title, optional pull-request URL, author login/URL). -/
structure GitHubIssueResponse where
  number : Nat
  title : String
  pull_request : Option PullRequestInfo
  user : GitHubUserResponse
deriving DecidableEq, Repr

/-- `CommitInfo` from `interfaces.ts` (modelled from the spec: set of
category labels, optional set of package names, optional linked issue). -/
structure CommitInfo where
  categories : Option (List String)
  packages : Option (List String)
  githubIssue : Option GitHubIssueResponse
deriving DecidableEq, Repr

/-- `Release` from `interfaces.ts` (modelled from the spec: name, date,
ordered commits, optional contributor list). -/
structure Release where
  name : String
  date : String
  commits : List CommitInfo
  contributors : Option (List GitHubUserResponse)
deriving DecidableEq, Repr

/-- The renderer's `Options`: ordered category list and base issue URL. -/
structure Options where
  categories : List String
  baseIssueUrl : String
deriving DecidableEq, Repr

/-- `UNRELEASED_TAG` sentinel. -/
def UNRELEASED_TAG : String := "___unreleased___"

/-! ## The regex `/(fix|close|resolve)(e?s|e?d)? [T#](\d+)/i`

JS regex matching at a position tries alternatives left to right with
backtracking; `(e?s|e?d)?` therefore tries the suffixes `es`, `s`, `ed`,
`d`, and finally the empty string.  `\d` is exactly `[0-9]`; the `/i`
flag folds letter case (ASCII here).  A whole-string match is the
leftmost position admitting a match. -/

/-- Case-insensitive match of a literal (lowercase) pattern against the
head of the input; returns the consumed characters and the rest. -/
def matchCI : List Char → List Char → Option (List Char × List Char)
  | [], s => some ([], s)
  | _ :: _, [] => none
  | p :: ps, c :: cs =>
    if c.toLower = p then
      match matchCI ps cs with
      | some (a, r) => some (c :: a, r)
      | none => none
    else none

/-- Maximal run of ASCII digits (`\d+` is greedy and nothing follows it). -/
def takeDigits : List Char → List Char × List Char
  | [] => ([], [])
  | c :: cs =>
    if c.isDigit then
      match takeDigits cs with
      | (ds, r) => (c :: ds, r)
    else ([], c :: cs)

/-- Match `· [T#](\d+)` — a space, `T`/`t`/`#`, then one or more digits.
Returns (consumed text, the digit group `$3`, rest). -/
def matchFixTail (s : List Char) : Option (List Char × List Char × List Char) :=
  match s with
  | sp :: h :: rest =>
    if sp = ' ' ∧ (h = 'T' ∨ h = 't' ∨ h = '#') then
      match takeDigits rest with
      | ([], _) => none
      | (d :: ds, r) => some (sp :: h :: (d :: ds), d :: ds, r)
    else none
  | _ => none

/-- Backtracking order of `(e?s|e?d)?`: `es`, `s`, `ed`, `d`, empty. -/
def suffixAlternatives : List (List Char) :=
  [['e', 's'], ['s'], ['e', 'd'], ['d'], []]

/-- Try each suffix alternative in order, each followed by the tail. -/
def matchSuffixTail : List (List Char) → List Char →
    Option (List Char × List Char × List Char)
  | [], _ => none
  | suf :: sufs, s =>
    match matchCI suf s with
    | some (a, r) =>
      match matchFixTail r with
      | some (t, ds, rest) => some (a ++ t, ds, rest)
      | none => matchSuffixTail sufs s
    | none => matchSuffixTail sufs s

/-- Match one verb alternative then suffix and tail. -/
def matchVerb (verb : List Char) (s : List Char) :
    Option (List Char × List Char × List Char) :=
  match matchCI verb s with
  | some (v, r) =>
    match matchSuffixTail suffixAlternatives r with
    | some (a, ds, rest) => some (v ++ a, ds, rest)
    | none => none
  | none => none

/-- Match the whole regex anchored at the current position.  The verb
alternatives start with distinct letters, so at any position at most one
of them can match and the left-to-right order below is exact.
Returns (matched text, digit group, rest of input). -/
def matchFixAt (s : List Char) : Option (List Char × List Char × List Char) :=
  match matchVerb ['f', 'i', 'x'] s with
  | some m => some m
  | none =>
    match matchVerb ['c', 'l', 'o', 's', 'e'] s with
    | some m => some m
    | none => matchVerb ['r', 'e', 's', 'o', 'l', 'v', 'e'] s

/-- `title.match(COMMIT_FIX_REGEX)` is non-null: some position matches. -/
def hasFixMatchL : List Char → Bool
  | [] => false
  | c :: cs => (matchFixAt (c :: cs)).isSome || hasFixMatchL cs

/-- The replacement text `Closes [#$3](<baseIssueUrl>$3)`. -/
def closesLink (base ds : List Char) : List Char :=
  ("Closes [#".data) ++ ds ++ ("](".data) ++ base ++ ds ++ (")".data)

/-- `title.replace(COMMIT_FIX_REGEX, ...)`: rewrite the leftmost match
only (the regex has no `g` flag); identity when nothing matches. -/
def replaceFixL (base : List Char) : List Char → List Char
  | [] => []
  | c :: cs =>
    match matchFixAt (c :: cs) with
    | some (_, ds, rest) => closesLink base ds ++ rest
    | none => c :: replaceFixL base cs

/-- String-level wrapper of `hasFixMatchL`. -/
def hasFixMatch (s : String) : Bool := hasFixMatchL s.data

/-- String-level wrapper of `replaceFixL`. -/
def replaceFix (base s : String) : String := String.mk (replaceFixL base.data s.data)

/-! ## `renderContribution`

Returns the rendered line (or `none` for a commit without a linked
issue, JS `undefined`) together with the commit as mutated by the
in-place `issue.title` rewrite. -/

/-- `renderContribution(commit)`.  JS truthiness: the PR link needs
`issue.number` (nonzero), `issue.pull_request`, and a non-empty
`html_url`; the rewrite needs a non-empty `issue.title` that matches. -/
def renderContribution (opts : Options) (commit : CommitInfo) :
    Option String × CommitInfo :=
  match commit.githubIssue with
  | none => (none, commit)
  | some issue =>
    let prLink :=
      match issue.pull_request with
      | some pr =>
        if issue.number ≠ 0 ∧ pr.html_url ≠ "" then
          "[#" ++ Nat.repr issue.number ++ "](" ++ pr.html_url ++ ") "
        else ""
      | none => ""
    let newTitle :=
      if issue.title ≠ "" ∧ hasFixMatch issue.title then
        replaceFix opts.baseIssueUrl issue.title
      else issue.title
    let issue2 := { issue with title := newTitle }
    (some (prLink ++ newTitle ++ ". ([@" ++ issue.user.login ++ "](" ++
       issue.user.html_url ++ "))"),
     { commit with githubIssue := some issue2 })

/-! ## State-threaded rendering pipeline

The master state is the release's commit list; buckets are index lists.
Each index stands for one JS object reference. -/

/-- `commit.categories && commit.categories.indexOf(name) !== -1`. -/
def commitHasCategory (commit : CommitInfo) (name : String) : Bool :=
  match commit.categories with
  | some cats => cats.contains name
  | none => false

/-- `groupByCategory` exactly as in the source, at the level of commit
values: one bucket per configured category, in configured order, holding
the input commits that carry that label, in input order. -/
def groupByCategory (opts : Options) (allCommits : List CommitInfo) :
    List (String × List CommitInfo) :=
  opts.categories.map (fun name =>
    (name, allCommits.filter (fun commit => commitHasCategory commit name)))

/-- Index form of one `groupByCategory` bucket: the positions in the
master list whose commit carries the label. -/
def bucketIdxs (st : List CommitInfo) (name : String) : List Nat :=
  (List.range st.length).filter (fun i =>
    match st.get? i with
    | some c => commitHasCategory c name
    | none => false)

/-- The `categoriesWithCommits` filter of `renderRelease`. -/
def nonEmptyBuckets (opts : Options) (st : List CommitInfo) :
    List (String × List Nat) :=
  (opts.categories.map (fun name => (name, bucketIdxs st name))).filter
    (fun b => !b.2.isEmpty)

/-- `commit.packages || []` read through an index. -/
def packagesOfIdx (st : List CommitInfo) (i : Nat) : List String :=
  match st.get? i with
  | some c => c.packages.getD []
  | none => []

/-- `hasPackages(commits)`: some commit has a defined, non-empty
`packages` array. -/
def hasPackagesIdx (st : List CommitInfo) (idxs : List Nat) : Bool :=
  idxs.any (fun i =>
    match st.get? i with
    | some c =>
      match c.packages with
      | some pkgs => !pkgs.isEmpty
      | none => false
    | none => false)

/-- `renderPackageNames(packageNames)`. -/
def renderPackageNames (packageNames : List String) : String :=
  if packageNames.isEmpty then "Other"
  else String.intercalate ", " (packageNames.map (fun pkg => "`" ++ pkg ++ "`"))

/-- One step of the JS object-building loop of
`renderContributionsByPackage`: append the index to the first bucket
with this key, or add a new key at the end (object insertion order). -/
def addToGroup (m : List (String × List Nat)) (k : String) (i : Nat) :
    List (String × List Nat) :=
  match m with
  | [] => [(k, [i])]
  | (k2, is) :: rest =>
    if k2 = k then (k2, is ++ [i]) :: rest
    else (k2, is) :: addToGroup rest k i

/-- The `commitsByPackage` object: keys in first-seen order. -/
def groupCommits (labelOf : Nat → String) (idxs : List Nat) :
    List (String × List Nat) :=
  idxs.foldl (fun m i => addToGroup m (labelOf i) i) []

/-- First bucket with the given key (JS property lookup). -/
def lookupGroup (m : List (String × List Nat)) (k : String) : List Nat :=
  match m with
  | [] => []
  | (k2, is) :: rest => if k2 = k then is else lookupGroup rest k

/-- Render one commit through its index, writing back the mutation. -/
def renderContribIdx (opts : Options) (st : List CommitInfo) (i : Nat) :
    Option String × List CommitInfo :=
  match st.get? i with
  | some c =>
    match renderContribution opts c with
    | (r, c2) => (r, st.set i c2)
  | none => (none, st)

/-- `commits.map((commit) => this.renderContribution(commit))`:
left-to-right, threading the mutations. -/
def renderListGo (opts : Options) (st : List CommitInfo) :
    List Nat → List (Option String) × List CommitInfo
  | [] => ([], st)
  | i :: is =>
    match renderContribIdx opts st i with
    | (r, st2) =>
      match renderListGo opts st2 is with
      | (rs, st3) => (r :: rs, st3)

/-- `renderContributionList(commits, prefix)`: render each commit, drop
falsy results (`undefined`; a rendered line is never the empty string,
but `filter(Boolean)` would drop it too), bullet and join. -/
def renderContributionList (opts : Options) (st : List CommitInfo)
    (idxs : List Nat) (pre : String) : String × List CommitInfo :=
  match renderListGo opts st idxs with
  | (outs, st2) =>
    (String.intercalate "\n"
      (((outs.filterMap id).filter (fun s => s ≠ "")).map
        (fun rendered => pre ++ "* " ++ rendered)), st2)

/-- The `packageNames.map(...)` loop of `renderContributionsByPackage`. -/
def renderGroupsGo (opts : Options) (st : List CommitInfo) :
    List (String × List Nat) → List String × List CommitInfo
  | [] => ([], st)
  | (k, is) :: gs =>
    match renderContributionList opts st is "  " with
    | (s, st2) =>
      match renderGroupsGo opts st2 gs with
      | (ss, st3) => (("* " ++ k ++ "\n" ++ s) :: ss, st3)

/-- `renderContributionsByPackage(commits)`: group by rendered package
label (insertion order), then emit one package bullet per group with a
nested, indented contribution list. -/
def renderContributionsByPackage (opts : Options) (st : List CommitInfo)
    (idxs : List Nat) : String × List CommitInfo :=
  let groups := groupCommits (fun i => renderPackageNames (packagesOfIdx st i)) idxs
  match renderGroupsGo opts st groups with
  | (pieces, st2) => (String.intercalate "\n" pieces, st2)

/-- `renderContributor(contributor)`; `if (contributor.name)` is JS
truthiness, so an empty display name falls back to the login link. -/
def renderContributor (contributor : GitHubUserResponse) : String :=
  let userNameAndLink := "[" ++ contributor.login ++ "](" ++ contributor.html_url ++ ")"
  match contributor.name with
  | some n => if n ≠ "" then n ++ " (" ++ userNameAndLink ++ ")" else userNameAndLink
  | none => userNameAndLink

/-- Lexicographic order on character lists, the JS default-comparator
order on strings (JS compares UTF-16 code units; for the ASCII and BMP
text at hand this coincides with comparing codepoints). -/
def charListLe : List Char → List Char → Bool
  | [], _ => true
  | _ :: _, [] => false
  | a :: as, b :: bs => if a < b then true else if b < a then false else charListLe as bs

/-- The JS `<=` outcome of the default string comparator. -/
def strLe (a b : String) : Bool := charListLe a.data b.data

/-- Stable insertion of a string into a sorted list: the inserted
element goes before the first strictly greater element, after equals. -/
def insertSorted (a : String) : List String → List String
  | [] => [a]
  | b :: bs => if strLe a b then a :: b :: bs else b :: insertSorted a bs

/-- `Array.prototype.sort` with the default comparator on the rendered
bullet lines: the unique stable lexicographic sort. -/
def sortStrings : List String → List String
  | [] => []
  | a :: as => insertSorted a (sortStrings as)

/-- `renderContributorList(contributors)`. -/
def renderContributorList (contributors : List GitHubUserResponse) : String :=
  "#### Committers: " ++ Nat.repr contributors.length ++ "\n" ++
    String.intercalate "\n"
      (sortStrings (contributors.map (fun c => "- " ++ renderContributor c)))

/-- The `for (const category of categoriesWithCommits)` loop body:
heading, then by-package or flat rendering of the bucket. -/
def renderCategoriesGo (opts : Options) (st : List CommitInfo) :
    List (String × List Nat) → String × List CommitInfo
  | [] => ("", st)
  | (name, is) :: bs =>
    match
      (if hasPackagesIdx st is then renderContributionsByPackage opts st is
       else renderContributionList opts st is "") with
    | (s, st2) =>
      match renderCategoriesGo opts st2 bs with
      | (rest, st3) => ("\n\n#### " ++ name ++ "\n" ++ s ++ rest, st3)

/-- `renderRelease(release)`: returns the markdown (the empty string when
no category bucket is non-empty) and the release with its commits as
mutated by rendering. -/
def renderRelease (opts : Options) (release : Release) : String × Release :=
  let st0 := release.commits
  let bucketsNE := nonEmptyBuckets opts st0
  if bucketsNE.isEmpty then ("", release)
  else
    let releaseTitle := if release.name = UNRELEASED_TAG then "Unreleased" else release.name
    match renderCategoriesGo opts st0 bucketsNE with
    | (body, stFin) =>
      let md := "## " ++ releaseTitle ++ " (" ++ release.date ++ ")" ++ body
      let md2 :=
        match release.contributors with
        | some cs => md ++ "\n\n" ++ renderContributorList cs
        | none => md
      (md2, { release with commits := stFin })

/-- `renderMarkdown(releases)`: leading newline, then the non-empty
per-release renderings joined by `"\n\n\n"`. -/
def renderMarkdown (opts : Options) (releases : List Release) :
    String × List Release :=
  let pairs := releases.map (fun r => renderRelease opts r)
  ("\n" ++ String.intercalate "\n\n\n"
      ((pairs.map Prod.fst).filter (fun s => s ≠ "")),
   pairs.map Prod.snd)

/-- The bucket-membership test read off the master list. -/
def entryPred (p : CommitInfo → Bool) (l : List CommitInfo) (i : Nat) : Bool :=
  match l.get? i with
  | some c => p c
  | none => false

/-- Keys of the `commitsByPackage` object in first-seen order, threading
the set of keys already present. -/
def firstSeenFrom (seen : List String) : List String → List String
  | [] => []
  | x :: xs =>
    if seen.contains x then firstSeenFrom seen xs
    else x :: firstSeenFrom (seen ++ [x]) xs

/-- Distinct labels of a label sequence, in first-seen order. -/
def firstSeen (l : List String) : List String := firstSeenFrom [] l

/-! ## Frame and simulation relations used by the mutation claims -/

/-- Two optional issues agreeing on everything except possibly the title. -/
def issueFrame : Option GitHubIssueResponse → Option GitHubIssueResponse → Prop
  | none, none => True
  | some i, some j => i.number = j.number ∧ i.pull_request = j.pull_request ∧ i.user = j.user
  | _, _ => False

/-- Two commits agreeing on every field except possibly the issue title. -/
def commitFrame (c d : CommitInfo) : Prop :=
  c.categories = d.categories ∧ c.packages = d.packages ∧
    issueFrame c.githubIssue d.githubIssue

/-- Two releases agreeing everywhere except possibly issue titles. -/
def releaseFrame (r s : Release) : Prop :=
  r.name = s.name ∧ r.date = s.date ∧ r.contributors = s.contributors ∧
    List.Forall₂ commitFrame r.commits s.commits

/-- A commit whose once-rendered state renders exactly as it: rendering
it a second time changes nothing and emits the same line.  This holds
whenever the title's single rewrite leaves no further regex match. -/
def renderStable (opts : Options) (c : CommitInfo) : Prop :=
  renderContribution opts ((renderContribution opts c).2) = renderContribution opts c

/-- After the title rewrite has been applied to some of the commits of
`st0`, the state is pointwise the original commit or its once-rendered
version. -/
def evolvesSt (opts : Options) (st0 st : List CommitInfo) : Prop :=
  st.length = st0.length ∧
  ∀ i : Nat, st.get? i = st0.get? i ∨
    st.get? i = Option.map (fun c => (renderContribution opts c).2) (st0.get? i)

/-- The line a commit of the original state would emit. -/
def pureOut (opts : Options) (st0 : List CommitInfo) (i : Nat) : Option String :=
  (st0.get? i).bind (fun c => (renderContribution opts c).1)

/-- The contribution list a state evolved from `st0` will print. -/
def canContribList (opts : Options) (st0 : List CommitInfo) (idxs : List Nat)
    (pre : String) : String :=
  String.intercalate "\n"
    ((((idxs.map (pureOut opts st0)).filterMap id).filter (fun s => s ≠ "")).map
      (fun rendered => pre ++ "* " ++ rendered))

/-- The category sections a state evolved from `st0` will print. -/
def canCategories (opts : Options) (st0 : List CommitInfo) :
    List (String × List Nat) → String
  | [] => ""
  | (name, is) :: bs =>
    "\n\n#### " ++ name ++ "\n" ++
      (if hasPackagesIdx st0 is then
        String.intercalate "\n"
          ((groupCommits (fun i => renderPackageNames (packagesOfIdx st0 i)) is).map
            (fun g => "* " ++ g.1 ++ "\n" ++ canContribList opts st0 g.2 "  "))
       else canContribList opts st0 is "") ++ canCategories opts st0 bs

/-! ## Concrete inputs used by witnesses and counterexamples -/

/-- A contributor with no display name. -/
def exAlice : GitHubUserResponse :=
  { login := "alice", html_url := "https://github.com/alice", name := none }

/-- Options with a single category and the spec's example issue URL. -/
def exOptsBug : Options :=
  { categories := ["Bug"], baseIssueUrl := "https://example.com/issues/" }

/-- A commit whose issue title matches the fix pattern twice. -/
def exC12 : CommitInfo :=
  { categories := some ["Bug"], packages := none,
    githubIssue := some
      { number := 0, title := "fixes #1 fixes #2", pull_request := none,
        user := exAlice } }

/-- The spec's example commit: issue title `"fixes #42"`. -/
def exC42 : CommitInfo :=
  { categories := some ["Bug"], packages := none,
    githubIssue := some
      { number := 0, title := "fixes #42", pull_request := none,
        user := exAlice } }

/-- A release holding the double-match commit. -/
def exRel12 : Release :=
  { name := "v1.0.0", date := "2020-01-01", commits := [exC12], contributors := none }

/-- A release holding the `"fixes #42"` commit. -/
def exRel42 : Release :=
  { name := "v1.0.0", date := "2020-01-01", commits := [exC42], contributors := none }

/-- A commit carrying both the `Feature` and the `Bug` label. -/
def exCFB : CommitInfo :=
  { categories := some ["Feature", "Bug"], packages := none,
    githubIssue := some
      { number := 0, title := "Stuff", pull_request := none, user := exAlice } }

/-- Configured category list `["Bug", "Feature"]`. -/
def exOpts3 : Options := { categories := ["Bug", "Feature"], baseIssueUrl := "u/" }

/-- Release for the two-category example. -/
def exRel3 : Release :=
  { name := "v1", date := "2020-01-01", commits := [exCFB], contributors := none }

/-- A release whose single commit matches no configured category. -/
def exRelNoCat : Release :=
  { name := "v2", date := "2020-02-02",
    commits := [{ categories := some ["Docs"], packages := none, githubIssue := none }],
    contributors := none }

/-- Commits with packages `["core"]`, `["core","utils"]`, and none. -/
def exSt6 : List CommitInfo :=
  [{ categories := some ["Bug"], packages := some ["core"],
     githubIssue := some { number := 0, title := "A", pull_request := none, user := exAlice } },
   { categories := some ["Bug"], packages := some ["core", "utils"],
     githubIssue := some { number := 0, title := "B", pull_request := none, user := exAlice } },
   { categories := some ["Bug"], packages := none,
     githubIssue := some { number := 0, title := "C", pull_request := none, user := exAlice } }]

/-- Release holding the three package-example commits. -/
def exRel6 : Release :=
  { name := "v1", date := "d", commits := exSt6, contributors := none }

/-- A commit with an issue carrying a pull-request link. -/
def exCPR : CommitInfo :=
  { categories := some ["Bug"], packages := none,
    githubIssue := some
      { number := 7, title := "Stuff",
        pull_request := some { html_url := "https://github.com/o/r/pull/7" },
        user := exAlice } }

/-- A commit with no linked issue. -/
def exCNoIssue : CommitInfo :=
  { categories := some ["Docs"], packages := none, githubIssue := none }

/-- Release with an empty (but present) contributor list. -/
def exRelEmptyContrib : Release :=
  { name := "v1", date := "d", commits := [exCFB], contributors := some [] }

/-- A contributor with a display name (sorts before `[alice](...)`
because `B` precedes `[` in code-unit order). -/
def exBob : GitHubUserResponse :=
  { login := "bob", html_url := "https://github.com/bob", name := some "Bob B" }

/-! ## Sanity checks of the embedding on concrete inputs -/

example :
    replaceFix "u/" "fixes #1 fixes #2" = "Closes [#1](u/1) fixes #2" := by decide

example : replaceFix "u/" "Fixed T70: done" = "Closes [#70](u/70): done" := by decide

example : hasFixMatch "Closes [#1](u/1) and more" = false := by decide

example : hasFixMatch "resolves #9" = true := by decide

example : hasFixMatch "fixes#9" = false := by decide

example :
    renderPackageNames ["core", "utils"] = "`core`, `utils`" := by decide

example : renderPackageNames [] = "Other" := by decide

/-! ## C9 — contributor list: count and line sorting -/

/-- The comparator is total. -/
theorem charListLe_total (as bs : List Char) :
    charListLe as bs = true ∨ charListLe bs as = true := by
  induction as generalizing bs with
  | nil => left; rfl
  | cons a as ih =>
    cases bs with
    | nil => right; rfl
    | cons b bs =>
      rcases lt_trichotomy a b with h | h | h
      · left; simp [charListLe, h]
      · subst h
        rcases ih bs with h2 | h2
        · left; simp [charListLe, lt_irrefl, h2]
        · right; simp [charListLe, lt_irrefl, h2]
      · right; simp [charListLe, h]

/-- The comparator is transitive. -/
theorem charListLe_trans (as bs cs : List Char)
    (h1 : charListLe as bs = true) (h2 : charListLe bs cs = true) :
    charListLe as cs = true := by
  induction as generalizing bs cs with
  | nil => rfl
  | cons a as ih =>
    cases bs with
    | nil => simp [charListLe] at h1
    | cons b bs =>
      cases cs with
      | nil => simp [charListLe] at h2
      | cons c cs =>
        by_cases hab : a < b
        · by_cases hbc : b < c
          · simp [charListLe, lt_trans hab hbc]
          · by_cases hcb : c < b
            · simp [charListLe, hbc, hcb] at h2
            · have : b = c := le_antisymm (not_lt.mp hcb) (not_lt.mp hbc)
              subst this
              simp [charListLe, hab]
        · by_cases hba : b < a
          · simp [charListLe, hab, hba] at h1
          · have : a = b := le_antisymm (not_lt.mp hba) (not_lt.mp hab)
            subst this
            simp only [charListLe, lt_irrefl, if_false] at h1
            by_cases hbc : a < c
            · simp [charListLe, hbc]
            · by_cases hcb : c < a
              · simp [charListLe, hbc, hcb] at h2
              · have : a = c := le_antisymm (not_lt.mp hcb) (not_lt.mp hbc)
                subst this
                simp only [charListLe, lt_irrefl, if_false] at h2 ⊢
                exact ih bs cs h1 h2

/-- Totality of `strLe`. -/
theorem strLe_total (a b : String) : strLe a b = true ∨ strLe b a = true :=
  charListLe_total a.data b.data

/-- Transitivity of `strLe`. -/
theorem strLe_trans {a b c : String} (h1 : strLe a b = true) (h2 : strLe b c = true) :
    strLe a c = true :=
  charListLe_trans a.data b.data c.data h1 h2

/-- Inserting into a list is a permutation of consing. -/
theorem perm_insertSorted (a : String) (l : List String) :
    List.Perm (insertSorted a l) (a :: l) := by
  induction l with
  | nil => exact List.Perm.refl _
  | cons b bs ih =>
    by_cases h : strLe a b = true
    · simp [insertSorted, h]
    · simp only [insertSorted, if_neg h]
      exact (ih.cons b).trans (List.Perm.swap a b bs)

/-- `sortStrings` permutes its input. -/
theorem perm_sortStrings (l : List String) : List.Perm (sortStrings l) l := by
  induction l with
  | nil => exact List.Perm.refl _
  | cons a as ih => exact (perm_insertSorted a (sortStrings as)).trans (ih.cons a)

/-- Insertion preserves sortedness. -/
theorem sorted_insertSorted (a : String) (l : List String)
    (h : List.Sorted (fun x y : String => strLe x y = true) l) :
    List.Sorted (fun x y : String => strLe x y = true) (insertSorted a l) := by
  induction l with
  | nil => simp [insertSorted]
  | cons b bs ih =>
    rcases List.sorted_cons.mp h with ⟨hb, hbs⟩
    by_cases hab : strLe a b = true
    · simp only [insertSorted, if_pos hab]
      refine List.sorted_cons.mpr ⟨?_, h⟩
      intro x hx
      rcases List.mem_cons.mp hx with rfl | hx
      · exact hab
      · exact strLe_trans hab (hb x hx)
    · simp only [insertSorted, if_neg hab]
      refine List.sorted_cons.mpr ⟨?_, ih hbs⟩
      intro x hx
      rcases List.mem_cons.mp ((perm_insertSorted a bs).mem_iff.mp hx) with rfl | hx
      · exact (strLe_total _ _).resolve_left hab
      · exact hb x hx

/-- `sortStrings` sorts. -/
theorem sorted_sortStrings (l : List String) :
    List.Sorted (fun x y : String => strLe x y = true) (sortStrings l) := by
  induction l with
  | nil => simp [sortStrings]
  | cons a as ih => exact sorted_insertSorted a (sortStrings as) ih

/-- C9: `renderContributorList` emits `#### Committers: N` with `N` the
input length, followed by the rendered `- `-prefixed contributor lines
sorted lexicographically as whole strings (so by the rendered markup,
not by contributor name); a contributor renders as
`name ([login](url))` when a (truthy) display name exists, else as
`[login](url)`. -/
theorem renderContributorList_sorted_count (contributors : List GitHubUserResponse) :
    ∃ L : List String,
      renderContributorList contributors =
        "#### Committers: " ++ Nat.repr contributors.length ++ "\n" ++
          String.intercalate "\n" L
      ∧ List.Perm L (contributors.map (fun c => "- " ++ renderContributor c))
      ∧ List.Sorted (fun a b : String => strLe a b = true) L
      ∧ L.length = contributors.length
      ∧ ∀ c ∈ contributors,
          (∀ n, c.name = some n → n ≠ "" →
            renderContributor c = n ++ " (" ++ "[" ++ c.login ++ "](" ++ c.html_url ++ ")" ++ ")")
          ∧ ((c.name = none ∨ c.name = some "") →
            renderContributor c = "[" ++ c.login ++ "](" ++ c.html_url ++ ")") := by
  refine ⟨sortStrings (contributors.map fun c => "- " ++ renderContributor c),
    rfl, perm_sortStrings _, sorted_sortStrings _, ?_, ?_⟩
  · rw [(perm_sortStrings _).length_eq, List.length_map]
  · intro c _
    constructor
    · intro n hn hne
      simp only [renderContributor, hn]
      rw [if_pos hne]
      simp only [String.append_assoc]
    · rintro (hn | hn) <;> simp [renderContributor, hn]

/-- Witness for C9 at a concrete two-contributor list, discharging the
inner hypotheses and pinning the fully evaluated output. -/
theorem renderContributorList_sorted_count_witness :
    (∃ L : List String,
      renderContributorList [exBob, exAlice] =
        "#### Committers: " ++ Nat.repr ([exBob, exAlice] : List GitHubUserResponse).length ++
          "\n" ++ String.intercalate "\n" L
      ∧ List.Perm L ([exBob, exAlice].map (fun c => "- " ++ renderContributor c))
      ∧ List.Sorted (fun a b : String => strLe a b = true) L)
    ∧ renderContributor exBob = "Bob B ([bob](https://github.com/bob))"
    ∧ renderContributorList [exBob, exAlice] =
        "#### Committers: 2\n- Bob B ([bob](https://github.com/bob))\n- [alice](https://github.com/alice)" := by
  obtain ⟨L, h1, h2, h3, -, hmem⟩ := renderContributorList_sorted_count [exBob, exAlice]
  refine ⟨⟨L, h1, h2, h3⟩, ?_, by decide⟩
  have := (hmem exBob (by decide)).1 "Bob B" rfl (by decide)
  rw [this]
  decide

/-! ## C4 — releases with no matching commits render empty -/

/-- Helper: when no commit of the release carries any configured
category, every bucket is empty. -/
theorem nonEmptyBuckets_eq_nil (opts : Options) (commits : List CommitInfo)
    (h : ∀ c ∈ commits, ∀ name ∈ opts.categories, commitHasCategory c name = false) :
    nonEmptyBuckets opts commits = [] := by
  apply List.filter_eq_nil_iff.mpr
  intro b hb
  rcases List.mem_map.mp hb with ⟨name, hname, rfl⟩
  have hbucket : bucketIdxs commits name = [] := by
    apply List.filter_eq_nil_iff.mpr
    intro i _
    cases hget : commits.get? i with
    | none => simp
    | some c =>
      have hc : c ∈ commits := List.get?_mem hget
      simp [h c hc name hname]
  simp [hbucket]

/-- C4: a release whose commits match none of the configured categories
renders to the empty string, and `renderMarkdown` excludes it from its
join wherever it occurs in the input list. -/
theorem renderRelease_empty_when_no_category_matches (opts : Options) (r : Release)
    (h : ∀ c ∈ r.commits, ∀ name ∈ opts.categories, commitHasCategory c name = false) :
    (renderRelease opts r).1 = ""
    ∧ ∀ rs1 rs2 : List Release,
        (renderMarkdown opts (rs1 ++ r :: rs2)).1 = (renderMarkdown opts (rs1 ++ rs2)).1 := by
  have hempty : (renderRelease opts r).1 = "" := by
    simp [renderRelease, nonEmptyBuckets_eq_nil opts r.commits h]
  refine ⟨hempty, fun rs1 rs2 => ?_⟩
  simp [renderMarkdown, List.map_append, List.filter_append, List.map_map,
    List.filter_cons, hempty]

/-- Witness for C4: the `Docs`-only release renders empty and is skipped. -/
theorem renderRelease_empty_when_no_category_matches_witness :
    (∀ c ∈ exRelNoCat.commits, ∀ name ∈ exOptsBug.categories,
        commitHasCategory c name = false)
    ∧ (renderRelease exOptsBug exRelNoCat).1 = ""
    ∧ (renderMarkdown exOptsBug ([exRel3] ++ exRelNoCat :: [exRel42])).1 =
        (renderMarkdown exOptsBug ([exRel3] ++ [exRel42])).1 :=
  ⟨by decide,
   (renderRelease_empty_when_no_category_matches exOptsBug exRelNoCat (by decide)).1,
   (renderRelease_empty_when_no_category_matches exOptsBug exRelNoCat (by decide)).2 [exRel3] [exRel42]⟩

/-! ## C3 — category grouping invariants -/

/-- `entryPred` at the head. -/
theorem entryPred_zero (p : CommitInfo → Bool) (a : CommitInfo) (l : List CommitInfo) :
    entryPred p (a :: l) 0 = p a := rfl

/-- Reading the commits back out of an index bucket recovers the plain
filter of the master list: index buckets and `groupByCategory` buckets
hold the same commits in the same (input) order. -/
theorem filterMap_entryPred (l : List CommitInfo) (p : CommitInfo → Bool) :
    ((List.range l.length).filter (entryPred p l)).filterMap (fun i => l.get? i)
      = l.filter p := by
  induction l with
  | nil => rfl
  | cons a l ih =>
    have h1 : entryPred p (a :: l) ∘ Nat.succ = entryPred p l := rfl
    have h2 : ((fun i => (a :: l).get? i) ∘ Nat.succ) = (fun i => l.get? i) := rfl
    simp only [List.length_cons, List.range_succ_eq_map, List.filter_cons, entryPred_zero]
    by_cases h : p a = true
    · rw [if_pos h, List.filterMap_cons]
      simp only [List.get?_cons_zero]
      rw [List.filter_map, List.filterMap_map, h1, h2, ih, if_pos h]
    · rw [if_neg h, List.filter_map, List.filterMap_map, h1, h2, ih, if_neg h]

/-- C3: `groupByCategory` produces buckets exactly in configured
category order regardless of commit order; each bucket is the input
filtered by label (so bucket-internal order is input order and a commit
appears in every bucket whose label it carries); a commit carrying no
configured category is in no bucket; the index buckets used by
`renderRelease` read back to the same filters; and a commit labelled
`["Feature","Bug"]` under configured `["Bug","Feature"]` renders under
both headings, `Bug` first. -/
theorem groupByCategory_order_and_membership (opts : Options) (cs : List CommitInfo) :
    ((groupByCategory opts cs).map Prod.fst = opts.categories)
    ∧ (∀ name bucket, (name, bucket) ∈ groupByCategory opts cs →
        bucket = cs.filter (fun c => commitHasCategory c name))
    ∧ (∀ c : CommitInfo, (∀ name ∈ opts.categories, commitHasCategory c name = false) →
        ∀ p ∈ groupByCategory opts cs, c ∉ p.2)
    ∧ (∀ name, (bucketIdxs cs name).filterMap (fun i => cs.get? i)
        = cs.filter (fun c => commitHasCategory c name))
    ∧ (renderRelease exOpts3 exRel3).1 =
        "## v1 (2020-01-01)\n\n#### Bug\n* Stuff. ([@alice](https://github.com/alice))\n\n#### Feature\n* Stuff. ([@alice](https://github.com/alice))" := by
  refine ⟨?_, ?_, ?_, ?_, by decide⟩
  · rw [groupByCategory, List.map_map]
    exact List.map_id' _
  · intro name bucket h
    rcases List.mem_map.mp h with ⟨n, _, heq⟩
    rcases Prod.mk.injEq .. ▸ heq with ⟨rfl, rfl⟩
    rfl
  · intro c hc p hp hmem
    rcases List.mem_map.mp hp with ⟨n, hn, rfl⟩
    have := (List.mem_filter.mp hmem).2
    rw [hc n hn] at this
    exact Bool.false_ne_true this
  · intro name
    exact filterMap_entryPred cs (fun c => commitHasCategory c name)

/-- Witness for C3, discharging the membership hypotheses at the
two-category example. -/
theorem groupByCategory_order_and_membership_witness :
    ((groupByCategory exOpts3 exRel3.commits).map Prod.fst = ["Bug", "Feature"])
    ∧ [exCFB] = exRel3.commits.filter (fun c => commitHasCategory c "Bug") := by
  constructor
  · rw [(groupByCategory_order_and_membership exOpts3 exRel3.commits).1]
    rfl
  · exact (groupByCategory_order_and_membership exOpts3 exRel3.commits).2.1
      "Bug" [exCFB] (by decide)

/-! ## C6 — package grouping in first-seen label order -/

/-- Adding to the object either reuses an existing key or appends a new
key at the end. -/
theorem addToGroup_keys (m : List (String × List Nat)) (k : String) (i : Nat) :
    (addToGroup m k i).map Prod.fst =
      if (m.map Prod.fst).contains k then m.map Prod.fst
      else m.map Prod.fst ++ [k] := by
  induction m with
  | nil => simp [addToGroup]
  | cons p m ih =>
    obtain ⟨k2, is⟩ := p
    by_cases h : k2 = k
    · subst h
      simp [addToGroup]
    · have hbeq : (k == k2) = false := by
        refine beq_eq_false_iff_ne.mpr ?_
        exact fun he => h he.symm
      simp only [addToGroup, if_neg h, List.map_cons, List.contains_cons, hbeq,
        Bool.false_or, ih]
      by_cases h2 : (m.map Prod.fst).contains k = true
      · simp only [if_pos h2]
      · simp only [if_neg h2, List.cons_append]

/-- Keys of the grouping fold, relative to keys already present. -/
theorem groupFold_keys (lab : Nat → String) (L : List Nat) :
    ∀ m : List (String × List Nat),
      ((L.foldl (fun m i => addToGroup m (lab i) i) m).map Prod.fst)
        = m.map Prod.fst ++ firstSeenFrom (m.map Prod.fst) (L.map lab) := by
  induction L with
  | nil => intro m; simp [firstSeenFrom]
  | cons j L ih =>
    intro m
    rw [List.foldl_cons, ih (addToGroup m (lab j) j), addToGroup_keys]
    by_cases h : (List.map Prod.fst m).contains (lab j) = true
    · rw [if_pos h]
      rw [List.map_cons]
      show _ = _ ++ firstSeenFrom _ (lab j :: _)
      rw [firstSeenFrom, if_pos h]
    · rw [if_neg h]
      rw [List.map_cons]
      show _ = _ ++ firstSeenFrom _ (lab j :: _)
      rw [firstSeenFrom, if_neg h]
      simp [List.append_assoc]

/-- The object's keys are the distinct labels in first-seen order. -/
theorem groupCommits_keys (lab : Nat → String) (L : List Nat) :
    (groupCommits lab L).map Prod.fst = firstSeen (L.map lab) := by
  simpa [groupCommits, firstSeen] using groupFold_keys lab L []

/-- Adding under a key appends to that key's bucket. -/
theorem lookupGroup_addToGroup_self (m : List (String × List Nat)) (k : String) (i : Nat) :
    lookupGroup (addToGroup m k i) k = lookupGroup m k ++ [i] := by
  induction m with
  | nil => simp [addToGroup, lookupGroup]
  | cons p m ih =>
    obtain ⟨k2, is⟩ := p
    by_cases h : k2 = k
    · subst h
      simp [addToGroup, lookupGroup]
    · simp [addToGroup, lookupGroup, h, ih]

/-- Adding under one key leaves other buckets unchanged. -/
theorem lookupGroup_addToGroup_other (m : List (String × List Nat)) (k k2 : String)
    (i : Nat) (h : k2 ≠ k) :
    lookupGroup (addToGroup m k i) k2 = lookupGroup m k2 := by
  have hne : k ≠ k2 := fun he => h he.symm
  induction m with
  | nil => simp [addToGroup, lookupGroup, hne]
  | cons p m ih =>
    obtain ⟨k3, is⟩ := p
    by_cases h3 : k3 = k
    · subst h3
      simp [addToGroup, lookupGroup, hne]
    · simp [addToGroup, lookupGroup, h3, ih]

/-- Each bucket of the grouping fold collects, in input order, exactly
the indices bearing its label. -/
theorem groupFold_lookup (lab : Nat → String) (k : String) (L : List Nat) :
    ∀ m : List (String × List Nat),
      lookupGroup (L.foldl (fun m i => addToGroup m (lab i) i) m) k
        = lookupGroup m k ++ L.filter (fun i => lab i == k) := by
  induction L with
  | nil => intro m; simp
  | cons j L ih =>
    intro m
    rw [List.foldl_cons, ih (addToGroup m (lab j) j)]
    by_cases h : lab j = k
    · have hbeq : (lab j == k) = true := by simpa [beq_iff_eq] using h
      rw [List.filter_cons]
      simp only [hbeq, if_pos]
      rw [← h, lookupGroup_addToGroup_self]
      simp [List.append_assoc]
    · have hne : k ≠ lab j := fun he => h he.symm
      have hbeq : (lab j == k) = false := beq_eq_false_iff_ne.mpr h
      rw [List.filter_cons]
      simp only [hbeq, Bool.false_eq_true, if_false]
      rw [lookupGroup_addToGroup_other m (lab j) k j hne]

/-- `groupCommits` bucket contents. -/
theorem groupCommits_lookup (lab : Nat → String) (L : List Nat) (k : String) :
    lookupGroup (groupCommits lab L) k = L.filter (fun i => lab i == k) := by
  simpa [groupCommits, lookupGroup] using groupFold_lookup lab k L []

set_option maxRecDepth 8192 in
/-- C6: within a category, `renderContributionsByPackage` groups commits
by the comma-joined backticked package-name label (`Other` when a commit
has no packages), with distinct labels in first-seen order and each
bucket collecting its commits in input order; on the `["core"]`,
`["core","utils"]`, no-packages example exactly the three groups
`` `core` ``, `` `core`, `utils` ``, `Other` appear in that order. -/
theorem package_grouping_first_seen_order :
    (renderPackageNames [] = "Other")
    ∧ (∀ ps : List String, ps ≠ [] →
        renderPackageNames ps =
          String.intercalate ", " (ps.map (fun pkg => "`" ++ pkg ++ "`")))
    ∧ (∀ (lab : Nat → String) (L : List Nat),
        (groupCommits lab L).map Prod.fst = firstSeen (L.map lab))
    ∧ (∀ (lab : Nat → String) (L : List Nat) (k : String),
        lookupGroup (groupCommits lab L) k = L.filter (fun i => lab i == k))
    ∧ ((groupCommits (fun i => renderPackageNames (packagesOfIdx exSt6 i)) [0, 1, 2]).map
        Prod.fst = ["`core`", "`core`, `utils`", "Other"])
    ∧ (renderRelease exOptsBug exRel6).1 =
        "## v1 (d)\n\n#### Bug\n* `core`\n  * A. ([@alice](https://github.com/alice))\n* `core`, `utils`\n  * B. ([@alice](https://github.com/alice))\n* Other\n  * C. ([@alice](https://github.com/alice))" := by
  refine ⟨rfl, ?_, groupCommits_keys, groupCommits_lookup, by decide, by decide⟩
  intro ps hps
  cases ps with
  | nil => exact absurd rfl hps
  | cons p ps => rfl

/-- Witness for C6, discharging the non-empty-package-list hypothesis. -/
theorem package_grouping_first_seen_order_witness :
    renderPackageNames ["core", "utils"] =
      String.intercalate ", " (["core", "utils"].map (fun pkg => "`" ++ pkg ++ "`"))
    ∧ lookupGroup (groupCommits
        (fun i => renderPackageNames (packagesOfIdx exSt6 i)) [0, 1, 2]) "Other" = [2] := by
  constructor
  · exact package_grouping_first_seen_order.2.1 ["core", "utils"] (by decide)
  · rw [package_grouping_first_seen_order.2.2.2.1
      (fun i => renderPackageNames (packagesOfIdx exSt6 i)) [0, 1, 2] "Other"]
    decide

/-! ## C7 — missing optional fields never fail -/

/-- Appending a non-empty string never yields the empty string. -/
theorem append_right_ne_empty (a b : String) (hb : b ≠ "") : a ++ b ≠ "" := by
  intro h
  apply hb
  have hd := congrArg String.data h
  rw [String.data_append] at hd
  have hnil : b.data = [] := (List.append_eq_nil.mp hd).2
  cases b with
  | mk l => cases hnil; rfl

/-- The exact line emitted for a commit with a linked issue. -/
theorem renderContribution_some_shape (opts : Options) (commit : CommitInfo)
    (issue : GitHubIssueResponse) (h : commit.githubIssue = some issue) :
    (renderContribution opts commit).1 =
      some ((match issue.pull_request with
             | some pr =>
               if issue.number ≠ 0 ∧ pr.html_url ≠ "" then
                 "[#" ++ Nat.repr issue.number ++ "](" ++ pr.html_url ++ ") "
               else ""
             | none => "") ++
            ((if issue.title ≠ "" ∧ hasFixMatch issue.title then
                replaceFix opts.baseIssueUrl issue.title
              else issue.title) ++ ". ([@" ++ issue.user.login ++ "](" ++
              issue.user.html_url ++ "))")) := by
  simp only [renderContribution, h, String.append_assoc]

/-- C7: `renderContribution` yields nothing exactly for commits without
a linked issue; with an issue it always yields a line, whose
`[#N](pr-url) ` head appears if and only if the issue has a (nonzero)
number and a pull request with a (non-empty) HTML URL.  Totality of the
definition (every case returns) is the no-error guarantee. -/
theorem renderContribution_issue_link_conditions (opts : Options) (commit : CommitInfo) :
    ((renderContribution opts commit).1 = none ↔ commit.githubIssue = none)
    ∧ ∀ issue, commit.githubIssue = some issue →
        ∃ pfx rest : String,
          (renderContribution opts commit).1 = some (pfx ++ rest)
          ∧ ((issue.number ≠ 0 ∧ ∃ pr, issue.pull_request = some pr ∧ pr.html_url ≠ "")
              ↔ pfx ≠ "")
          ∧ (∀ pr, issue.pull_request = some pr → issue.number ≠ 0 → pr.html_url ≠ "" →
              pfx = "[#" ++ Nat.repr issue.number ++ "](" ++ pr.html_url ++ ") ")
          ∧ ((issue.number = 0 ∨ issue.pull_request = none ∨
              (∀ pr, issue.pull_request = some pr → pr.html_url = "")) → pfx = "") := by
  cases hgi : commit.githubIssue with
  | none =>
    refine ⟨?_, ?_⟩
    · simp [renderContribution, hgi]
    · intro issue h
      exact absurd h (by simp)
  | some issue =>
    refine ⟨?_, ?_⟩
    · simp [renderContribution, hgi]
    · intro issueB h
      have heq : issue = issueB := Option.some_inj.mp h
      subst heq
      have hout := renderContribution_some_shape opts commit issue hgi
      cases hpr : issue.pull_request with
      | none =>
        simp only [hpr] at hout
        refine ⟨"", _, hout, ?_, ?_, fun _ => rfl⟩
        · constructor
          · rintro ⟨-, pr, hpr2, -⟩
            exact absurd hpr2 (by simp)
          · intro hne
            exact absurd rfl hne
        · intro pr hpr2
          exact absurd hpr2 (by simp)
      | some pr =>
        simp only [hpr] at hout
        by_cases hcond : issue.number ≠ 0 ∧ pr.html_url ≠ ""
        · rw [if_pos hcond] at hout
          refine ⟨_, _, hout, ?_, ?_, ?_⟩
          · constructor
            · intro _
              exact append_right_ne_empty _ _ (by decide)
            · intro _
              exact ⟨hcond.1, pr, rfl, hcond.2⟩
          · intro pr2 hpr2 _ _
            have : pr = pr2 := Option.some_inj.mp hpr2
            subst this
            rfl
          · rintro (h0 | h0 | h0)
            · exact absurd h0 hcond.1
            · exact absurd h0 (by simp)
            · exact absurd (h0 pr rfl) hcond.2
        · rw [if_neg hcond] at hout
          refine ⟨"", _, hout, ?_, ?_, fun _ => rfl⟩
          · constructor
            · rintro ⟨hn, pr2, hpr2, hu⟩
              have : pr = pr2 := Option.some_inj.mp hpr2
              subst this
              exact absurd ⟨hn, hu⟩ hcond
            · intro hne
              exact absurd rfl hne
          · intro pr2 hpr2 hn hu
            have : pr = pr2 := Option.some_inj.mp hpr2
            subst this
            exact absurd ⟨hn, hu⟩ hcond

/-- Witness for C7: a no-issue commit renders nothing; the PR-linked
commit gets exactly the `[#7](...) ` head. -/
theorem renderContribution_issue_link_conditions_witness :
    ((renderContribution exOptsBug exCNoIssue).1 = none)
    ∧ ∃ pfx rest : String,
        (renderContribution exOptsBug exCPR).1 = some (pfx ++ rest)
        ∧ pfx = "[#7](https://github.com/o/r/pull/7) " := by
  constructor
  · exact (renderContribution_issue_link_conditions exOptsBug exCNoIssue).1.mpr rfl
  · obtain ⟨pfx, rest, h1, -, h3, -⟩ :=
      (renderContribution_issue_link_conditions exOptsBug exCPR).2
        ⟨7, "Stuff", some ⟨"https://github.com/o/r/pull/7"⟩, exAlice⟩ rfl
    refine ⟨pfx, rest, h1, ?_⟩
    rw [h3 ⟨"https://github.com/o/r/pull/7"⟩ rfl (by decide) (by decide)]
    decide

/-! ## C1 — the rewrite hits only the first (leftmost) match -/

/-- A successful literal match consumes a prefix of the input. -/
theorem matchCI_split (p : List Char) :
    ∀ s a r : List Char, matchCI p s = some (a, r) → s = a ++ r := by
  induction p with
  | nil =>
    intro s a r h
    simp only [matchCI, Option.some.injEq, Prod.mk.injEq] at h
    obtain ⟨rfl, rfl⟩ := h
    rfl
  | cons pc pp ih =>
    intro s a r h
    cases s with
    | nil => exact absurd h (by simp [matchCI])
    | cons c cs =>
      rw [matchCI] at h
      split at h
      · cases hm : matchCI pp cs with
        | none => rw [hm] at h; cases h
        | some pair =>
          obtain ⟨a2, r2⟩ := pair
          rw [hm] at h
          simp only [Option.some.injEq, Prod.mk.injEq] at h
          obtain ⟨rfl, rfl⟩ := h
          rw [List.cons_append]
          exact congrArg (List.cons c) (ih _ _ _ hm)
      · cases h

/-- `takeDigits` splits its input. -/
theorem takeDigits_split : ∀ s : List Char, s = (takeDigits s).1 ++ (takeDigits s).2 := by
  intro s
  induction s with
  | nil => rfl
  | cons c cs ih =>
    by_cases h : c.isDigit
    · simp only [takeDigits, if_pos h]
      conv_lhs => rw [ih]
      exact (List.cons_append _ _ _).symm
    · simp only [takeDigits, if_neg h]
      rfl

/-- A successful tail match consumes a prefix of the input. -/
theorem matchFixTail_split (s t ds r : List Char)
    (h : matchFixTail s = some (t, ds, r)) : s = t ++ r := by
  cases s with
  | nil => exact absurd h (by simp [matchFixTail])
  | cons sp s2 =>
    cases s2 with
    | nil => exact absurd h (by simp [matchFixTail])
    | cons h2 rest =>
      rw [matchFixTail] at h
      split at h
      · cases htd : takeDigits rest with
        | mk ds2 r2 =>
          rw [htd] at h
          cases ds2 with
          | nil => cases h
          | cons d ds3 =>
            simp only [Option.some.injEq, Prod.mk.injEq] at h
            obtain ⟨rfl, -, rfl⟩ := h
            have hsplit2 : rest = (d :: ds3) ++ r2 := by
              have h3 := takeDigits_split rest
              rw [htd] at h3
              exact h3
            rw [hsplit2]
            simp [List.cons_append]
      · cases h

/-- A successful suffix-and-tail match consumes a prefix of the input. -/
theorem matchSuffixTail_split (sufs : List (List Char)) :
    ∀ s a ds r : List Char, matchSuffixTail sufs s = some (a, ds, r) → s = a ++ r := by
  induction sufs with
  | nil => intro s a ds r h; cases h
  | cons suf sufs ih =>
    intro s a ds r h
    rw [matchSuffixTail] at h
    cases hci : matchCI suf s with
    | none =>
      rw [hci] at h
      exact ih s a ds r h
    | some pair =>
      obtain ⟨a1, r1⟩ := pair
      rw [hci] at h
      have h2 : (match matchFixTail r1 with
          | some (t2, ds2, rest2) => some (a1 ++ t2, ds2, rest2)
          | none => matchSuffixTail sufs s) = some (a, ds, r) := h
      cases hft : matchFixTail r1 with
      | none =>
        rw [hft] at h2
        exact ih s a ds r h2
      | some triple =>
        obtain ⟨t, ds1, rest1⟩ := triple
        rw [hft] at h2
        simp only [Option.some.injEq, Prod.mk.injEq] at h2
        obtain ⟨rfl, -, rfl⟩ := h2
        rw [matchCI_split suf s a1 r1 hci, matchFixTail_split r1 t ds1 _ hft,
          List.append_assoc]

/-- A successful verb match consumes a prefix of the input. -/
theorem matchVerb_split (verb s a ds r : List Char)
    (h : matchVerb verb s = some (a, ds, r)) : s = a ++ r := by
  rw [matchVerb] at h
  cases hci : matchCI verb s with
  | none => rw [hci] at h; cases h
  | some pair =>
    obtain ⟨v, r1⟩ := pair
    rw [hci] at h
    have h2 : (match matchSuffixTail suffixAlternatives r1 with
        | some (a2, ds2, rest2) => some (v ++ a2, ds2, rest2)
        | none => none) = some (a, ds, r) := h
    cases hst : matchSuffixTail suffixAlternatives r1 with
    | none => rw [hst] at h2; cases h2
    | some triple =>
      obtain ⟨a1, ds1, rest1⟩ := triple
      rw [hst] at h2
      simp only [Option.some.injEq, Prod.mk.injEq] at h2
      obtain ⟨rfl, -, rfl⟩ := h2
      rw [matchCI_split verb s v r1 hci,
        matchSuffixTail_split suffixAlternatives r1 a1 ds1 _ hst, List.append_assoc]

/-- A successful anchored regex match consumes a prefix of the input. -/
theorem matchFixAt_split (s a ds r : List Char)
    (h : matchFixAt s = some (a, ds, r)) : s = a ++ r := by
  rw [matchFixAt] at h
  cases h1 : matchVerb ['f', 'i', 'x'] s with
  | some m =>
    rw [h1] at h
    cases h
    exact matchVerb_split _ s a ds r h1
  | none =>
    rw [h1] at h
    cases h2 : matchVerb ['c', 'l', 'o', 's', 'e'] s with
    | some m =>
      rw [h2] at h
      cases h
      exact matchVerb_split _ s a ds r h2
    | none =>
      rw [h2] at h
      exact matchVerb_split _ s a ds r h

/-- C1 (amended): `replace` with the non-global regex rewrites exactly
the leftmost matching substring — the title decomposes as
`pre ++ match ++ rest` with no match starting inside `pre`, and the
result is `pre ++ Closes-link ++ rest`; `renderContribution` stores and
renders that once-rewritten title.  (The original "every substring"
phrasing fails: later matches survive, see the counterexample.) -/
theorem renderContribution_rewrites_first_fix_match :
    (∀ base t : List Char, hasFixMatchL t = true →
      ∃ pre m ds rest,
        t = pre ++ (m ++ rest)
        ∧ matchFixAt (m ++ rest) = some (m, ds, rest)
        ∧ (∀ j, j < pre.length → matchFixAt (t.drop j) = none)
        ∧ replaceFixL base t = pre ++ (closesLink base ds ++ rest))
    ∧ (∀ (opts : Options) (commit : CommitInfo) issue,
        commit.githubIssue = some issue → issue.title ≠ "" →
        hasFixMatch issue.title = true →
        ∃ issue2, (renderContribution opts commit).2.githubIssue = some issue2
          ∧ issue2.title = replaceFix opts.baseIssueUrl issue.title
          ∧ (renderContribution opts commit).1 =
              some ((match issue.pull_request with
                     | some pr =>
                       if issue.number ≠ 0 ∧ pr.html_url ≠ "" then
                         "[#" ++ Nat.repr issue.number ++ "](" ++ pr.html_url ++ ") "
                       else ""
                     | none => "") ++
                    (replaceFix opts.baseIssueUrl issue.title ++ ". ([@" ++
                      issue.user.login ++ "](" ++ issue.user.html_url ++ "))"))) := by
  constructor
  · intro base t h
    induction t with
    | nil => simp [hasFixMatchL] at h
    | cons c cs ih =>
      cases hm : matchFixAt (c :: cs) with
      | some triple =>
        obtain ⟨m, ds, rest⟩ := triple
        have hsplit : c :: cs = m ++ rest := matchFixAt_split _ m ds rest hm
        refine ⟨[], m, ds, rest, by simpa using hsplit, ?_, ?_, ?_⟩
        · rw [← hsplit]
          exact hm
        · intro j hj
          simp at hj
        · rw [replaceFixL, hm]
          rfl
      | none =>
        have h2 : hasFixMatchL cs = true := by
          simpa [hasFixMatchL, hm] using h
        obtain ⟨pre, m, ds, rest, h1, hmat, hleft, hrepl⟩ := ih h2
        refine ⟨c :: pre, m, ds, rest, by simp [h1], hmat, ?_, ?_⟩
        · intro j hj
          cases j with
          | zero => simpa using hm
          | succ j2 =>
            have hdrop : (c :: cs).drop (j2 + 1) = cs.drop j2 := rfl
            rw [hdrop]
            exact hleft j2 (by simpa using hj)
        · rw [replaceFixL, hm, hrepl]
          rfl
  · intro opts commit issue hgi htitle hmatch
    have hout := renderContribution_some_shape opts commit issue hgi
    rw [if_pos ⟨htitle, hmatch⟩] at hout
    refine ⟨{ issue with title := replaceFix opts.baseIssueUrl issue.title }, ?_, rfl, hout⟩
    simp only [renderContribution, hgi]
    rw [if_pos ⟨htitle, hmatch⟩]

/-- Counterexample to C1 as stated: with title `"fixes #1 fixes #2"`
only the first match is rewritten — the rendered line still contains the
matching substring `fixes #2`. -/
theorem renderContribution_not_every_fix_match_rewritten :
    (renderContribution exOptsBug exC12).1 =
      some "Closes [#1](https://example.com/issues/1) fixes #2. ([@alice](https://github.com/alice))"
    ∧ hasFixMatch
        "Closes [#1](https://example.com/issues/1) fixes #2. ([@alice](https://github.com/alice))"
        = true :=
  ⟨by decide, by decide⟩

/-- Witness for C1 at the spec's `"fixes #42"` example: the rendered
text contains `Closes [#42](https://example.com/issues/42)`. -/
theorem renderContribution_rewrites_first_fix_match_witness :
    (hasFixMatchL ("fixes #42".data) = true
     ∧ ∃ pre m ds rest,
         ("fixes #42".data) = pre ++ (m ++ rest)
         ∧ matchFixAt (m ++ rest) = some (m, ds, rest)
         ∧ (∀ j, j < pre.length → matchFixAt (("fixes #42".data).drop j) = none)
         ∧ replaceFixL ("https://example.com/issues/".data) ("fixes #42".data)
             = pre ++ (closesLink ("https://example.com/issues/".data) ds ++ rest))
    ∧ (renderContribution exOptsBug exC42).1 =
        some "Closes [#42](https://example.com/issues/42). ([@alice](https://github.com/alice))" :=
  ⟨⟨by decide,
    renderContribution_rewrites_first_fix_match.1
      ("https://example.com/issues/".data) ("fixes #42".data) (by decide)⟩,
   by decide⟩

/-! ## Unfolding lemmas for the state-threaded recursions -/

/-- One step of `renderListGo`. -/
theorem renderListGo_cons (opts : Options) (st : List CommitInfo) (i : Nat)
    (is : List Nat) :
    renderListGo opts st (i :: is) =
      ((renderContribIdx opts st i).1 ::
        (renderListGo opts (renderContribIdx opts st i).2 is).1,
       (renderListGo opts (renderContribIdx opts st i).2 is).2) := by
  cases he1 : renderContribIdx opts st i with
  | mk r st2 =>
    cases he2 : renderListGo opts st2 is with
    | mk rs st3 =>
      rw [renderListGo, he1]
      simp [he2]

/-- `renderContributionList` in terms of `renderListGo`. -/
theorem renderContributionList_eq (opts : Options) (st : List CommitInfo)
    (idxs : List Nat) (pre : String) :
    renderContributionList opts st idxs pre =
      (String.intercalate "\n"
        ((((renderListGo opts st idxs).1.filterMap id).filter (fun s => s ≠ "")).map
          (fun rendered => pre ++ "* " ++ rendered)),
       (renderListGo opts st idxs).2) := by
  cases he : renderListGo opts st idxs with
  | mk outs st2 =>
    rw [renderContributionList, he]

/-- One step of `renderGroupsGo`. -/
theorem renderGroupsGo_cons (opts : Options) (st : List CommitInfo) (k : String)
    (is : List Nat) (gs : List (String × List Nat)) :
    renderGroupsGo opts st ((k, is) :: gs) =
      (("* " ++ k ++ "\n" ++ (renderContributionList opts st is "  ").1) ::
         (renderGroupsGo opts (renderContributionList opts st is "  ").2 gs).1,
       (renderGroupsGo opts (renderContributionList opts st is "  ").2 gs).2) := by
  cases he1 : renderContributionList opts st is "  " with
  | mk s1 st2 =>
    cases he2 : renderGroupsGo opts st2 gs with
    | mk ss st3 =>
      rw [renderGroupsGo, he1]
      simp [he2]

/-- `renderContributionsByPackage` in terms of `renderGroupsGo`. -/
theorem renderContributionsByPackage_eq (opts : Options) (st : List CommitInfo)
    (idxs : List Nat) :
    renderContributionsByPackage opts st idxs =
      (String.intercalate "\n"
        ((renderGroupsGo opts st
          (groupCommits (fun i => renderPackageNames (packagesOfIdx st i)) idxs)).1),
       (renderGroupsGo opts st
          (groupCommits (fun i => renderPackageNames (packagesOfIdx st i)) idxs)).2) := by
  cases he : renderGroupsGo opts st
      (groupCommits (fun i => renderPackageNames (packagesOfIdx st i)) idxs) with
  | mk ps st2 =>
    rw [renderContributionsByPackage, he]

/-- One step of `renderCategoriesGo`. -/
theorem renderCategoriesGo_cons (opts : Options) (st : List CommitInfo)
    (name : String) (is : List Nat) (bs : List (String × List Nat)) :
    renderCategoriesGo opts st ((name, is) :: bs) =
      ("\n\n#### " ++ name ++ "\n" ++
        (if hasPackagesIdx st is then renderContributionsByPackage opts st is
         else renderContributionList opts st is "").1 ++
        (renderCategoriesGo opts
          (if hasPackagesIdx st is then renderContributionsByPackage opts st is
           else renderContributionList opts st is "").2 bs).1,
       (renderCategoriesGo opts
          (if hasPackagesIdx st is then renderContributionsByPackage opts st is
           else renderContributionList opts st is "").2 bs).2) := by
  cases he1 : (if hasPackagesIdx st is then renderContributionsByPackage opts st is
      else renderContributionList opts st is "") with
  | mk s1 st2 =>
    cases he2 : renderCategoriesGo opts st2 bs with
    | mk rest st3 =>
      rw [renderCategoriesGo, he1]
      simp [he2]

/-! ## C8 — rendering mutates only issue titles -/

/-- `commitFrame` is reflexive. -/
theorem commitFrame_refl (c : CommitInfo) : commitFrame c c := by
  refine ⟨rfl, rfl, ?_⟩
  cases c.githubIssue with
  | none => trivial
  | some i => exact ⟨rfl, rfl, rfl⟩

/-- `commitFrame` is transitive. -/
theorem commitFrame_trans {a b c : CommitInfo} (h1 : commitFrame a b)
    (h2 : commitFrame b c) : commitFrame a c := by
  obtain ⟨h1a, h1b, h1c⟩ := h1
  obtain ⟨h2a, h2b, h2c⟩ := h2
  refine ⟨h1a.trans h2a, h1b.trans h2b, ?_⟩
  cases ha : a.githubIssue with
  | none =>
    rw [ha] at h1c
    cases hb : b.githubIssue with
    | none =>
      rw [hb] at h2c
      cases hc : c.githubIssue with
      | none => trivial
      | some jc => rw [hc] at h2c; exact absurd h2c (by simp [issueFrame])
    | some jb => rw [hb] at h1c; exact absurd h1c (by simp [issueFrame])
  | some ja =>
    rw [ha] at h1c
    cases hb : b.githubIssue with
    | none => rw [hb] at h1c; exact absurd h1c (by simp [issueFrame])
    | some jb =>
      rw [hb] at h1c h2c
      cases hc : c.githubIssue with
      | none => rw [hc] at h2c; exact absurd h2c (by simp [issueFrame])
      | some jc =>
        rw [hc] at h2c
        obtain ⟨x1, x2, x3⟩ := h1c
        obtain ⟨y1, y2, y3⟩ := h2c
        exact ⟨x1.trans y1, x2.trans y2, x3.trans y3⟩

/-- Rendering a commit changes at most its issue title. -/
theorem commitFrame_renderContribution (opts : Options) (c : CommitInfo) :
    commitFrame c (renderContribution opts c).2 := by
  cases hgi : c.githubIssue with
  | none => simp only [renderContribution, hgi]; exact commitFrame_refl c
  | some issue =>
    simp only [renderContribution, hgi]
    exact ⟨rfl, rfl, by rw [hgi]; exact ⟨rfl, rfl, rfl⟩⟩

/-- Reading a related state through `get?`. -/
theorem forall2_get? {R : CommitInfo → CommitInfo → Prop} :
    ∀ {l0 l : List CommitInfo}, List.Forall₂ R l0 l → ∀ {i : Nat} {c : CommitInfo},
      l.get? i = some c → ∃ c0, l0.get? i = some c0 ∧ R c0 c := by
  intro l0 l h
  induction h with
  | nil => intro i c hget; cases hget
  | cons hR hF ih =>
    intro i c hget
    cases i with
    | zero =>
      refine ⟨_, rfl, ?_⟩
      cases hget
      exact hR
    | succ i2 => exact ih hget

/-- Writing a related element preserves `Forall₂`. -/
theorem forall2_set {R : CommitInfo → CommitInfo → Prop} :
    ∀ {l0 l : List CommitInfo}, List.Forall₂ R l0 l → ∀ {i : Nat} {d : CommitInfo},
      (∀ c0, l0.get? i = some c0 → R c0 d) → List.Forall₂ R l0 (l.set i d) := by
  intro l0 l h
  induction h with
  | nil => intro i d _; exact List.Forall₂.nil
  | cons hR hF ih =>
    intro i d hd
    cases i with
    | zero => exact List.Forall₂.cons (hd _ rfl) hF
    | succ i2 => exact List.Forall₂.cons hR (ih (fun c0 hc0 => hd c0 hc0))

/-- `renderContribIdx` preserves the frame relation to the original. -/
theorem renderContribIdx_frame (opts : Options) {st0 st : List CommitInfo}
    (hf : List.Forall₂ commitFrame st0 st) (i : Nat) :
    List.Forall₂ commitFrame st0 (renderContribIdx opts st i).2 := by
  cases hget : st.get? i with
  | none => rw [renderContribIdx, hget]; exact hf
  | some c =>
    have : (renderContribIdx opts st i).2 = st.set i (renderContribution opts c).2 := by
      rw [renderContribIdx, hget]
    rw [this]
    refine forall2_set hf ?_
    intro c0 hc0
    obtain ⟨c0b, hc0b, hR⟩ := forall2_get? hf hget
    rw [hc0] at hc0b
    cases hc0b
    exact commitFrame_trans hR (commitFrame_renderContribution opts c)

/-- `renderListGo` preserves the frame relation. -/
theorem renderListGo_frame (opts : Options) :
    ∀ (idxs : List Nat) {st0 st : List CommitInfo},
      List.Forall₂ commitFrame st0 st →
      List.Forall₂ commitFrame st0 (renderListGo opts st idxs).2 := by
  intro idxs
  induction idxs with
  | nil => intro st0 st hf; exact hf
  | cons i is ih =>
    intro st0 st hf
    rw [renderListGo_cons]
    exact ih (renderContribIdx_frame opts hf i)

/-- `renderGroupsGo` preserves the frame relation. -/
theorem renderGroupsGo_frame (opts : Options) :
    ∀ (gs : List (String × List Nat)) {st0 st : List CommitInfo},
      List.Forall₂ commitFrame st0 st →
      List.Forall₂ commitFrame st0 (renderGroupsGo opts st gs).2 := by
  intro gs
  induction gs with
  | nil => intro st0 st hf; exact hf
  | cons g gs ih =>
    obtain ⟨k, is⟩ := g
    intro st0 st hf
    rw [renderGroupsGo_cons]
    refine ih ?_
    rw [renderContributionList_eq]
    exact renderListGo_frame opts is hf

/-- `renderCategoriesGo` preserves the frame relation. -/
theorem renderCategoriesGo_frame (opts : Options) :
    ∀ (bs : List (String × List Nat)) {st0 st : List CommitInfo},
      List.Forall₂ commitFrame st0 st →
      List.Forall₂ commitFrame st0 (renderCategoriesGo opts st bs).2 := by
  intro bs
  induction bs with
  | nil => intro st0 st hf; exact hf
  | cons b bs ih =>
    obtain ⟨name, is⟩ := b
    intro st0 st hf
    rw [renderCategoriesGo_cons]
    refine ih ?_
    by_cases hp : hasPackagesIdx st is
    · rw [if_pos hp, renderContributionsByPackage_eq]
      exact renderGroupsGo_frame opts _ hf
    · rw [if_neg hp, renderContributionList_eq]
      exact renderListGo_frame opts is hf

/-- `renderRelease` changes at most issue titles of its release. -/
theorem renderRelease_frame (opts : Options) (r : Release) :
    releaseFrame r (renderRelease opts r).2 := by
  rw [renderRelease]
  by_cases hb : (nonEmptyBuckets opts r.commits).isEmpty
  · rw [if_pos hb]
    exact ⟨rfl, rfl, rfl, List.forall₂_same.mpr (fun c _ => commitFrame_refl c)⟩
  · rw [if_neg hb]
    cases hgo : renderCategoriesGo opts r.commits (nonEmptyBuckets opts r.commits) with
    | mk body stFin =>
      have hF : List.Forall₂ commitFrame r.commits stFin := by
        have := renderCategoriesGo_frame opts (nonEmptyBuckets opts r.commits)
          (List.forall₂_same.mpr (fun c (_ : c ∈ r.commits) => commitFrame_refl c))
        rw [hgo] at this
        exact this
      cases hc : r.contributors with
      | none => exact ⟨rfl, rfl, hc, hF⟩
      | some cs => exact ⟨rfl, rfl, hc, hF⟩

/-- C8: `renderMarkdown` leaves every field of every input record
unchanged except issue titles, which the documented in-place rewrite may
replace. -/
theorem renderMarkdown_frame_only_issue_titles (opts : Options) (releases : List Release) :
    List.Forall₂ releaseFrame releases (renderMarkdown opts releases).2 := by
  induction releases with
  | nil => exact List.Forall₂.nil
  | cons r rs ih =>
    exact List.Forall₂.cons (renderRelease_frame opts r) ih

/-! ## C2 — idempotence of rendering (amended) -/

/-- Rendering never changes `categories` or `packages`. -/
theorem renderContribution_views (opts : Options) (c : CommitInfo) :
    (renderContribution opts c).2.categories = c.categories
    ∧ (renderContribution opts c).2.packages = c.packages := by
  cases hgi : c.githubIssue with
  | none => exact ⟨by rw [renderContribution, hgi], by rw [renderContribution, hgi]⟩
  | some issue => exact ⟨by rw [renderContribution, hgi], by rw [renderContribution, hgi]⟩

/-- A stable commit's once-rendered state is itself stable. -/
theorem renderStable_step (opts : Options) {c : CommitInfo}
    (hs : renderStable opts c) :
    renderStable opts ((renderContribution opts c).2) := by
  unfold renderStable
  rw [hs]
  exact hs

/-- `evolvesSt` is reflexive. -/
theorem evolvesSt_refl (opts : Options) (st0 : List CommitInfo) :
    evolvesSt opts st0 st0 :=
  ⟨rfl, fun _ => Or.inl rfl⟩

/-- Evolution preserves emptiness of entries. -/
theorem evolves_get?_none (opts : Options) {st0 st : List CommitInfo}
    (he : evolvesSt opts st0 st) {i : Nat} (h : st.get? i = none) :
    st0.get? i = none := by
  rw [List.get?_eq_none] at h ⊢
  rw [← he.1]
  exact h

/-- An entry of an evolved state is the original or its rendered form. -/
theorem evolves_entry (opts : Options) {st0 st : List CommitInfo}
    (he : evolvesSt opts st0 st) {i : Nat} {c : CommitInfo}
    (hget : st.get? i = some c) :
    ∃ c0, st0.get? i = some c0 ∧ (c = c0 ∨ c = (renderContribution opts c0).2) := by
  rcases he.2 i with hcase | hcase
  · exact ⟨c, by rw [← hcase, hget], Or.inl rfl⟩
  · cases h0 : st0.get? i with
    | none =>
      rw [h0, hget] at hcase
      exact absurd hcase (by simp)
    | some c0 =>
      rw [h0, hget] at hcase
      have hc : c = (renderContribution opts c0).2 := by
        have := hcase
        simp only [Option.map_some', Option.some.injEq] at this
        exact this
      exact ⟨c0, rfl, Or.inr hc⟩

/-- `renderContribIdx` on an evolved state (with all original entries
stable) emits the original entry's line and keeps the state evolved. -/
theorem renderContribIdx_sim (opts : Options) {st0 : List CommitInfo}
    (HS : ∀ i c, st0.get? i = some c → renderStable opts c)
    {st : List CommitInfo} (he : evolvesSt opts st0 st) (i : Nat) :
    (renderContribIdx opts st i).1 = pureOut opts st0 i
    ∧ evolvesSt opts st0 (renderContribIdx opts st i).2 := by
  cases hget : st.get? i with
  | none =>
    have h0 : st0.get? i = none := evolves_get?_none opts he hget
    rw [renderContribIdx, hget]
    exact ⟨by rw [pureOut, h0]; rfl, he⟩
  | some c =>
    obtain ⟨c0, h0, hcase⟩ := evolves_entry opts he hget
    have hstable := HS i c0 h0
    have hout : (renderContribution opts c).1 = (renderContribution opts c0).1 := by
      rcases hcase with rfl | rfl
      · rfl
      · exact congrArg Prod.fst hstable
    have hsnd : (renderContribution opts c).2 = (renderContribution opts c0).2 := by
      rcases hcase with rfl | rfl
      · rfl
      · exact congrArg Prod.snd hstable
    have hidx : renderContribIdx opts st i =
        ((renderContribution opts c).1, st.set i (renderContribution opts c).2) := by
      rw [renderContribIdx, hget]
    rw [hidx]
    constructor
    · rw [hout, pureOut, h0]
      rfl
    · refine ⟨by rw [List.length_set]; exact he.1, ?_⟩
      intro j
      by_cases hj : i = j
      · subst hj
        right
        rw [List.get?_set_eq, hget, h0]
        show some ((renderContribution opts c).2) = some ((renderContribution opts c0).2)
        rw [hsnd]
      · rw [List.get?_set_ne _ _ hj]
        exact he.2 j

/-- `renderListGo` on an evolved stable state emits the original lines. -/
theorem renderListGo_sim (opts : Options) {st0 : List CommitInfo}
    (HS : ∀ i c, st0.get? i = some c → renderStable opts c) :
    ∀ (idxs : List Nat) {st : List CommitInfo}, evolvesSt opts st0 st →
      (renderListGo opts st idxs).1 = idxs.map (pureOut opts st0)
      ∧ evolvesSt opts st0 (renderListGo opts st idxs).2 := by
  intro idxs
  induction idxs with
  | nil => intro st he; exact ⟨rfl, he⟩
  | cons i is ih =>
    intro st he
    obtain ⟨hstep1, hstep2⟩ := renderContribIdx_sim opts HS he i
    obtain ⟨ih1, ih2⟩ := ih hstep2
    rw [renderListGo_cons]
    exact ⟨by rw [List.map_cons, hstep1, ih1], ih2⟩

/-- `renderContributionList` on an evolved stable state prints the
canonical list. -/
theorem renderContributionList_sim (opts : Options) {st0 : List CommitInfo}
    (HS : ∀ i c, st0.get? i = some c → renderStable opts c)
    (idxs : List Nat) (pre : String) {st : List CommitInfo}
    (he : evolvesSt opts st0 st) :
    (renderContributionList opts st idxs pre).1 = canContribList opts st0 idxs pre
    ∧ evolvesSt opts st0 (renderContributionList opts st idxs pre).2 := by
  obtain ⟨h1, h2⟩ := renderListGo_sim opts HS idxs he
  rw [renderContributionList_eq]
  exact ⟨by rw [h1]; rfl, h2⟩

/-- Evolution preserves the packages read through an index. -/
theorem evolves_packagesOfIdx (opts : Options) {st0 st : List CommitInfo}
    (he : evolvesSt opts st0 st) (i : Nat) :
    packagesOfIdx st i = packagesOfIdx st0 i := by
  rcases he.2 i with hc | hc
  · rw [packagesOfIdx, packagesOfIdx, hc]
  · cases h0 : st0.get? i with
    | none =>
      have hc2 : st.get? i = none := by rw [hc, h0]; rfl
      rw [packagesOfIdx, packagesOfIdx, hc2, h0]
    | some c0 =>
      have hc2 : st.get? i = some ((renderContribution opts c0).2) := by rw [hc, h0]; rfl
      simp only [packagesOfIdx, hc2, h0]
      rw [(renderContribution_views opts c0).2]

/-- Evolution preserves the `hasPackages` test. -/
theorem evolves_hasPackagesIdx (opts : Options) {st0 st : List CommitInfo}
    (he : evolvesSt opts st0 st) (L : List Nat) :
    hasPackagesIdx st L = hasPackagesIdx st0 L := by
  induction L with
  | nil => rfl
  | cons i is ih =>
    rw [hasPackagesIdx, hasPackagesIdx] at ih
    rw [hasPackagesIdx, hasPackagesIdx, List.any_cons, List.any_cons]
    have hhead : (match st.get? i with
        | some c =>
          match c.packages with
          | some pkgs => !pkgs.isEmpty
          | none => false
        | none => false) =
        (match st0.get? i with
        | some c =>
          match c.packages with
          | some pkgs => !pkgs.isEmpty
          | none => false
        | none => false) := by
      rcases he.2 i with hc | hc
      · rw [hc]
      · cases h0 : st0.get? i with
        | none =>
          have hc2 : st.get? i = none := by rw [hc, h0]; rfl
          rw [hc2]
        | some c0 =>
          have hc2 : st.get? i = some ((renderContribution opts c0).2) := by
            rw [hc, h0]; rfl
          simp only [hc2, h0]
          rw [(renderContribution_views opts c0).2]
    rw [hhead, ih]

/-- Evolution preserves the category buckets. -/
theorem evolves_bucketIdxs (opts : Options) {st0 st : List CommitInfo}
    (he : evolvesSt opts st0 st) (name : String) :
    bucketIdxs st name = bucketIdxs st0 name := by
  rw [bucketIdxs, bucketIdxs, he.1]
  apply List.filter_congr
  intro i _
  rcases he.2 i with hc | hc
  · rw [hc]
  · cases h0 : st0.get? i with
    | none =>
      have hc2 : st.get? i = none := by rw [hc, h0]; rfl
      rw [hc2]
    | some c0 =>
      have hc2 : st.get? i = some ((renderContribution opts c0).2) := by rw [hc, h0]; rfl
      simp only [hc2, h0]
      rw [commitHasCategory, commitHasCategory, (renderContribution_views opts c0).1]

/-- Evolution preserves the non-empty buckets. -/
theorem evolves_nonEmptyBuckets (opts : Options) {st0 st : List CommitInfo}
    (he : evolvesSt opts st0 st) :
    nonEmptyBuckets opts st = nonEmptyBuckets opts st0 := by
  rw [nonEmptyBuckets, nonEmptyBuckets]
  have hmap : opts.categories.map (fun name => (name, bucketIdxs st name))
      = opts.categories.map (fun name => (name, bucketIdxs st0 name)) :=
    List.map_congr_left (fun name _ => by rw [evolves_bucketIdxs opts he name])
  rw [hmap]

/-- Evolution preserves the package-label grouping. -/
theorem evolves_groupCommits (opts : Options) {st0 st : List CommitInfo}
    (he : evolvesSt opts st0 st) (idxs : List Nat) :
    groupCommits (fun i => renderPackageNames (packagesOfIdx st i)) idxs
      = groupCommits (fun i => renderPackageNames (packagesOfIdx st0 i)) idxs := by
  have hlab : (fun i => renderPackageNames (packagesOfIdx st i))
      = (fun i => renderPackageNames (packagesOfIdx st0 i)) :=
    funext (fun i => by rw [evolves_packagesOfIdx opts he i])
  rw [hlab]

/-- `renderGroupsGo` on an evolved stable state prints canonically. -/
theorem renderGroupsGo_sim (opts : Options) {st0 : List CommitInfo}
    (HS : ∀ i c, st0.get? i = some c → renderStable opts c) :
    ∀ (gs : List (String × List Nat)) {st : List CommitInfo}, evolvesSt opts st0 st →
      (renderGroupsGo opts st gs).1 =
        gs.map (fun g => "* " ++ g.1 ++ "\n" ++ canContribList opts st0 g.2 "  ")
      ∧ evolvesSt opts st0 (renderGroupsGo opts st gs).2 := by
  intro gs
  induction gs with
  | nil => intro st he; exact ⟨rfl, he⟩
  | cons g gs ih =>
    obtain ⟨k, is⟩ := g
    intro st he
    obtain ⟨hl1, hl2⟩ := renderContributionList_sim opts HS is "  " he
    obtain ⟨ih1, ih2⟩ := ih hl2
    rw [renderGroupsGo_cons]
    exact ⟨by rw [List.map_cons, hl1, ih1], ih2⟩

/-- `renderContributionsByPackage` on an evolved stable state prints
canonically. -/
theorem renderContributionsByPackage_sim (opts : Options) {st0 : List CommitInfo}
    (HS : ∀ i c, st0.get? i = some c → renderStable opts c)
    (idxs : List Nat) {st : List CommitInfo} (he : evolvesSt opts st0 st) :
    (renderContributionsByPackage opts st idxs).1 =
      String.intercalate "\n"
        ((groupCommits (fun i => renderPackageNames (packagesOfIdx st0 i)) idxs).map
          (fun g => "* " ++ g.1 ++ "\n" ++ canContribList opts st0 g.2 "  "))
    ∧ evolvesSt opts st0 (renderContributionsByPackage opts st idxs).2 := by
  rw [renderContributionsByPackage_eq, evolves_groupCommits opts he idxs]
  obtain ⟨h1, h2⟩ := renderGroupsGo_sim opts HS
    (groupCommits (fun i => renderPackageNames (packagesOfIdx st0 i)) idxs) he
  exact ⟨by rw [h1], h2⟩

/-- `renderCategoriesGo` on an evolved stable state prints canonically. -/
theorem renderCategoriesGo_sim (opts : Options) {st0 : List CommitInfo}
    (HS : ∀ i c, st0.get? i = some c → renderStable opts c) :
    ∀ (bs : List (String × List Nat)) {st : List CommitInfo}, evolvesSt opts st0 st →
      (renderCategoriesGo opts st bs).1 = canCategories opts st0 bs
      ∧ evolvesSt opts st0 (renderCategoriesGo opts st bs).2 := by
  intro bs
  induction bs with
  | nil => intro st he; exact ⟨rfl, he⟩
  | cons b bs ih =>
    obtain ⟨name, is⟩ := b
    intro st he
    rw [renderCategoriesGo_cons, canCategories]
    rw [evolves_hasPackagesIdx opts he is]
    by_cases hp : hasPackagesIdx st0 is = true
    · simp only [if_pos hp]
      obtain ⟨hp1, hp2⟩ := renderContributionsByPackage_sim opts HS is he
      obtain ⟨ih1, ih2⟩ := ih hp2
      exact ⟨by rw [hp1, ih1], ih2⟩
    · simp only [if_neg hp]
      obtain ⟨hl1, hl2⟩ := renderContributionList_sim opts HS is "" he
      obtain ⟨ih1, ih2⟩ := ih hl2
      exact ⟨by rw [hl1, ih1], ih2⟩

/-- `renderRelease` unfolded, when some bucket is non-empty. -/
theorem renderRelease_eq_of_nonEmpty (opts : Options) (r : Release)
    (hb : (nonEmptyBuckets opts r.commits).isEmpty = false) :
    renderRelease opts r =
      ((match r.contributors with
        | some cs =>
          "## " ++ (if r.name = UNRELEASED_TAG then "Unreleased" else r.name) ++ " (" ++
            r.date ++ ")" ++
            (renderCategoriesGo opts r.commits (nonEmptyBuckets opts r.commits)).1 ++
            "\n\n" ++ renderContributorList cs
        | none =>
          "## " ++ (if r.name = UNRELEASED_TAG then "Unreleased" else r.name) ++ " (" ++
            r.date ++ ")" ++
            (renderCategoriesGo opts r.commits (nonEmptyBuckets opts r.commits)).1),
       { r with commits :=
          (renderCategoriesGo opts r.commits (nonEmptyBuckets opts r.commits)).2 }) := by
  rw [renderRelease]
  rw [if_neg (by rw [hb]; exact Bool.false_ne_true)]

/-- The markdown component of the unfolding. -/
theorem renderRelease_fst_of_nonEmpty (opts : Options) (r : Release)
    (hb : (nonEmptyBuckets opts r.commits).isEmpty = false) :
    (renderRelease opts r).1 =
      (match r.contributors with
        | some cs =>
          "## " ++ (if r.name = UNRELEASED_TAG then "Unreleased" else r.name) ++ " (" ++
            r.date ++ ")" ++
            (renderCategoriesGo opts r.commits (nonEmptyBuckets opts r.commits)).1 ++
            "\n\n" ++ renderContributorList cs
        | none =>
          "## " ++ (if r.name = UNRELEASED_TAG then "Unreleased" else r.name) ++ " (" ++
            r.date ++ ")" ++
            (renderCategoriesGo opts r.commits (nonEmptyBuckets opts r.commits)).1) := by
  rw [renderRelease_eq_of_nonEmpty opts r hb]

/-- The mutated-release component of the unfolding. -/
theorem renderRelease_snd_of_nonEmpty (opts : Options) (r : Release)
    (hb : (nonEmptyBuckets opts r.commits).isEmpty = false) :
    (renderRelease opts r).2 =
      { r with commits :=
          (renderCategoriesGo opts r.commits (nonEmptyBuckets opts r.commits)).2 } := by
  rw [renderRelease_eq_of_nonEmpty opts r hb]

/-- C2 (amended): rendering the same release object twice produces
identical markdown provided every commit is render-stable, i.e. its
single title rewrite leaves no further regex match — which is exactly
the spec's "the pattern no longer matches" proviso.  Without it a title
with a second match is rewritten again on the second call and the
markdown differs (see the counterexample). -/
theorem renderRelease_idempotent_markdown_of_stable (opts : Options) (r : Release)
    (h : ∀ c ∈ r.commits, renderStable opts c) :
    (renderRelease opts ((renderRelease opts r).2)).1 = (renderRelease opts r).1 := by
  have HS : ∀ i c, r.commits.get? i = some c → renderStable opts c :=
    fun i c hget => h c (List.get?_mem hget)
  cases hb : (nonEmptyBuckets opts r.commits).isEmpty with
  | true =>
    have h1 : renderRelease opts r = ("", r) := by
      rw [renderRelease, if_pos hb]
    rw [h1]
    show (renderRelease opts r).1 = ""
    rw [h1]
  | false =>
    have hsim1 := renderCategoriesGo_sim opts HS (nonEmptyBuckets opts r.commits)
      (evolvesSt_refl opts r.commits)
    have heF := hsim1.2
    have hfst1 := renderRelease_fst_of_nonEmpty opts r hb
    have hsnd1 := renderRelease_snd_of_nonEmpty opts r hb
    have hb2 : (nonEmptyBuckets opts
        ({ r with commits :=
            (renderCategoriesGo opts r.commits (nonEmptyBuckets opts r.commits)).2 }
          : Release).commits).isEmpty = false := by
      show (nonEmptyBuckets opts
        ((renderCategoriesGo opts r.commits (nonEmptyBuckets opts r.commits)).2)).isEmpty
        = false
      rw [evolves_nonEmptyBuckets opts heF]
      exact hb
    have hfst2 := renderRelease_fst_of_nonEmpty opts _ hb2
    have hsim2 := renderCategoriesGo_sim opts HS (nonEmptyBuckets opts r.commits) heF
    rw [hsnd1, hfst2, hfst1]
    dsimp only
    rw [evolves_nonEmptyBuckets opts heF]
    rw [hsim2.1, hsim1.1]

/-- Counterexample to C2 as stated: with issue title
`"fixes #1 fixes #2"` the first render rewrites only the first match and
mutates the stored title; the second render rewrites the remaining
`fixes #2`, so the two markdown outputs differ. -/
theorem renderRelease_second_render_differs :
    (renderRelease exOptsBug (renderRelease exOptsBug exRel12).2).1 ≠
      (renderRelease exOptsBug exRel12).1 := by
  decide

/-- Witness for C2 (amended) at the `"fixes #42"` release, whose single
rewrite `Closes [#42](...)` matches nothing further. -/
theorem renderRelease_idempotent_markdown_of_stable_witness :
    (∀ c ∈ exRel42.commits, renderStable exOptsBug c)
    ∧ (renderRelease exOptsBug ((renderRelease exOptsBug exRel42).2)).1 =
        (renderRelease exOptsBug exRel42).1 := by
  have hstable : ∀ c ∈ exRel42.commits, renderStable exOptsBug c := by
    intro c hc
    have hceq : c = exC42 := by simpa [exRel42] using hc
    subst hceq
    show renderContribution exOptsBug ((renderContribution exOptsBug exC42).2)
        = renderContribution exOptsBug exC42
    decide
  exact ⟨hstable, renderRelease_idempotent_markdown_of_stable exOptsBug exRel42 hstable⟩

/-! ## C10 — empty contributor list still yields a section -/

/-- C10: for a release that renders non-empty, an empty-but-present
contributor list (`some []`, truthy in JS) still appends a section whose
heading is `#### Committers: 0` with no bullet lines; with an absent
(`none`) contributor field the markdown is the bare body, so the section
is suppressed only by absence. -/
theorem renderRelease_empty_contributor_section (opts : Options) (r : Release)
    (h1 : r.contributors = some [])
    (h2 : (nonEmptyBuckets opts r.commits).isEmpty = false) :
    (renderRelease opts r).1 =
      (renderRelease opts { r with contributors := none }).1 ++ "\n\n#### Committers: 0\n"
    ∧ renderContributorList [] = "#### Committers: 0\n" := by
  have hrcl : renderContributorList [] = "#### Committers: 0\n" := by decide
  refine ⟨?_, hrcl⟩
  have hcat : ("\n\n" : String) ++ "#### Committers: 0\n" = "\n\n#### Committers: 0\n" := by
    decide
  simp [renderRelease, h1, h2, hrcl, String.append_assoc, hcat]

/-- Witness for C10 at a concrete release with `contributors = some []`. -/
theorem renderRelease_empty_contributor_section_witness :
    exRelEmptyContrib.contributors = some []
    ∧ (nonEmptyBuckets exOptsBug exRelEmptyContrib.commits).isEmpty = false
    ∧ (renderRelease exOptsBug exRelEmptyContrib).1 =
        (renderRelease exOptsBug { exRelEmptyContrib with contributors := none }).1 ++
          "\n\n#### Committers: 0\n" :=
  ⟨by decide, by decide,
   (renderRelease_empty_contributor_section exOptsBug exRelEmptyContrib
      (by decide) (by decide)).1⟩

/-! ## C5 — `renderMarkdown` join -/

/-- C5: `renderMarkdown` returns exactly one leading newline followed by
the non-empty per-release renderings, in input order, joined by the
separator `"\n\n\n"` (two blank lines); empty renderings are skipped.
When every release renders non-empty the filter is the identity. -/
theorem renderMarkdown_join_nonempty_renders (opts : Options) (releases : List Release) :
    (renderMarkdown opts releases).1 =
      "\n" ++ String.intercalate "\n\n\n"
        ((releases.map (fun r => (renderRelease opts r).1)).filter (fun s => s ≠ ""))
    ∧ ((∀ r ∈ releases, (renderRelease opts r).1 ≠ "") →
        (renderMarkdown opts releases).1 =
          "\n" ++ String.intercalate "\n\n\n"
            (releases.map (fun r => (renderRelease opts r).1))) := by
  constructor
  · simp only [renderMarkdown, List.map_map]
    rfl
  · intro h
    simp only [renderMarkdown, List.map_map]
    have : ((releases.map (fun r => (renderRelease opts r).1)).filter
        (fun s => s ≠ "")) = releases.map (fun r => (renderRelease opts r).1) := by
      apply List.filter_eq_self.mpr
      intro s hs
      rcases List.mem_map.mp hs with ⟨r, hr, rfl⟩
      simpa using h r hr
    rw [← this]
    rfl

/-- Witness for C5 at concrete input: both releases render non-empty. -/
theorem renderMarkdown_join_nonempty_renders_witness :
    (∀ r ∈ [exRel3, exRel42], (renderRelease exOptsBug r).1 ≠ "") ∧
    (renderMarkdown exOptsBug [exRel3, exRel42]).1 =
      "\n" ++ String.intercalate "\n\n\n"
        ([exRel3, exRel42].map (fun r => (renderRelease exOptsBug r).1)) :=
  ⟨by decide, (renderMarkdown_join_nonempty_renders exOptsBug [exRel3, exRel42]).2 (by decide)⟩
